import Mathlib

/-!
# Verification of the otter layer-composition engine

A shallow embedding, in Lean 4, of the core of the `otter` tool: the
ignore-pattern matcher and file-merge engine (`util` package,
`FileOperations`), the variable resolver and configuration parser
(`file` package, `otterfile.go`), the git layer-source resolver
(`util` package, `GitOperations`), the hook executor (`util` package,
`CommandExecutor`), and the build orchestrator.

Go strings are modelled as Lean `String`/`List Char`; Go maps
(`map[string]string`) as association lists with replace-on-insert;
fallible Go functions (returning `error`) as `Except String`;
the ambient environment (`os.Getenv`) as an explicit function
`String → String` returning `""` for unset names, exactly the
`os.Getenv` contract.
-/

namespace Otter

/-- Go `os.Getenv`: total, `""` for an unset name. -/
abbrev Env := String → String

/-- Model of Go `strings.HasPrefix s pre`. -/
def goHasPrefix (s pre : String) : Bool :=
  pre.data.isPrefixOf s.data

/-- Model of Go `strings.HasSuffix s suf`. -/
def goHasSuffix (s suf : String) : Bool :=
  suf.data.isSuffixOf s.data

/-- Whether `sub` occurs contiguously inside `l`. -/
def listHasInfix (sub : List Char) : List Char → Bool
  | [] => sub.isEmpty
  | c :: rest => sub.isPrefixOf (c :: rest) || listHasInfix sub rest

/-- Model of Go `strings.Contains s sub`. -/
def goContains (s sub : String) : Bool :=
  listHasInfix sub.data s.data

/-- Model of Go `strings.TrimSpace` (drop leading and trailing whitespace). -/
def trimSpace (s : String) : String :=
  String.mk (((s.data.dropWhile Char.isWhitespace).reverse.dropWhile
    Char.isWhitespace).reverse)

/-- Model of Go `strings.Join parts " "`. -/
def joinSpace (parts : List String) : String :=
  String.intercalate " " parts

/-- Model of Go `strings.SplitN s "=" 2`: `none` when `s` has no `'='`
(Go returns a one-element slice then), otherwise the part before the first
`'='` and everything after it. -/
def splitFirstEq (s : String) : Option (String × String) :=
  if s.data.contains '=' then
    some (String.mk (s.data.takeWhile (· != '=')),
          String.mk ((s.data.dropWhile (· != '=')).drop 1))
  else
    none

/-- The final path segment, as in the source's
`strings.Split(path, "/")` followed by taking the last element. -/
def lastSegment (path : String) : List Char :=
  (path.data.splitOn '/').getLastD []

/-!
## Pattern Matcher (`util` package, `FileOperations`)

Straight translation of `matchWildcard`, `matchPattern` and
`isIgnoredWithPatterns`.
-/

/-- `FileOperations.matchWildcard`: `"*"` matches everything; a pattern
beginning with `"*."` matches by suffix (the `"*"` is trimmed and the
rest compared as a suffix of the path); every other wildcard pattern
matches nothing. -/
def matchWildcard (pattern path : String) : Bool :=
  if pattern = "*" then
    true
  else if goHasPrefix pattern "*." then
    -- extension := strings.TrimPrefix(pattern, "*")
    let extension := String.mk (pattern.data.drop 1)
    goHasSuffix path extension
  else
    false

/-- `FileOperations.matchPattern`, branch for branch:
exact equality; a pattern ending in `"/"` matches the bare directory name
or any path under it; a pattern containing `'*'` is delegated to
`matchWildcard`; a pattern with no `"/"` may match the path's final
segment; otherwise (and as fall-through of the final-segment check)
plain prefix matching of the whole relative path. -/
def matchPattern (pattern path : String) : Bool :=
  if pattern = path then
    true
  else if goHasSuffix pattern "/" then
    -- dirPattern := strings.TrimSuffix(pattern, "/")
    let dirPattern := String.mk pattern.data.dropLast
    goHasPrefix path (dirPattern ++ "/") || path = dirPattern
  else if pattern.data.contains '*' then
    matchWildcard pattern path
  else if !pattern.data.contains '/' && (lastSegment path == pattern.data) then
    true
  else
    goHasPrefix path pattern

/-- `FileOperations.isIgnoredWithPatterns`: a path is ignored exactly when
some pattern of the combined list matches it. -/
def isIgnoredWithPatterns (relativePath : String) (patterns : List String) : Bool :=
  patterns.any (fun pattern => matchPattern pattern relativePath)

/-- The hardcoded critical ignore patterns appended by `CopyLayer`. -/
def criticalIgnorePatterns : List String :=
  [".git", ".git/", ".otter", ".otter/", ".otterignore", ".gitignore"]

/-- The pattern list `CopyLayer` actually matches against: project-level
patterns, then the layer's own patterns, then the critical patterns. -/
def combinedPatterns (projectPatterns layerPatterns : List String) : List String :=
  projectPatterns ++ layerPatterns ++ criticalIgnorePatterns

/-!
## Variable Resolver (`file` package, `substituteVariables`)

The source replaces every match of the regular expression
`\$\{([^}]+)\}` via `ReplaceAllStringFunc`.  We embed the leftmost scan
of that regular expression as a tokenizer (`scanPlaceholders`): at each
`"$"` immediately followed by `"{"`, the candidate name runs to the
first following `"}"` (the character class of the regex cannot cross a
`"}"`); a match needs the name non-empty and a closing `"}"` present,
else scanning continues one character further.  `renderTokens` then
applies the source's replacement function to every match.
-/

/-- A token of the `\$\{([^}]+)\}` scan: a literal character, or one
matched placeholder carrying its name. -/
inductive SubToken where
  | lit (c : Char)
  | nameRef (name : List Char)
deriving DecidableEq, Repr

/-- Leftmost scan of the source's placeholder regular expression. -/
def scanPlaceholders : List Char → List SubToken
  | [] => []
  | '$' :: '{' :: rest =>
    let name := rest.takeWhile (· != '}')
    match h : rest.dropWhile (· != '}') with
    | '}' :: tail =>
      if name.isEmpty then
        .lit '$' :: .lit '{' :: scanPlaceholders rest
      else
        .nameRef name :: scanPlaceholders tail
    | _ => .lit '$' :: .lit '{' :: scanPlaceholders rest
  | c :: rest => .lit c :: scanPlaceholders rest
termination_by l => l.length
decreasing_by
  · simp only [List.length_cons]; omega
  · have hle : (rest.dropWhile (· != '}')).length ≤ rest.length :=
      (List.dropWhile_sublist (· != '}')).length_le
    rw [h] at hle
    simp only [List.length_cons] at hle ⊢
    omega
  · simp only [List.length_cons]; omega
  · simp only [List.length_cons]; omega

/-- Model of Go `strings.ToUpper`: uppercase every character. -/
def goToUpper (s : String) : String :=
  String.mk (s.data.map Char.toUpper)

/-- The replacement function passed to `ReplaceAllStringFunc`: the
`variables` map first; then the environment under `OTTER_` + the
uppercased name when non-empty; then the environment under the raw name
when non-empty; otherwise the placeholder itself, verbatim. -/
def resolvePlaceholder (vars : List (String × String)) (env : Env)
    (name : List Char) : String :=
  let nameStr := String.mk name
  match vars.lookup nameStr with
  | some v => v
  | none =>
    let viaOtter := env ("OTTER_" ++ goToUpper nameStr)
    if viaOtter != "" then viaOtter
    else
      let direct := env nameStr
      if direct != "" then direct
      else "$\x7b" ++ nameStr ++ "\x7d"

/-- Reassemble the scanned text, replacing every matched placeholder. -/
def renderTokens (vars : List (String × String)) (env : Env) :
    List SubToken → List Char
  | [] => []
  | .lit c :: ts => c :: renderTokens vars env ts
  | .nameRef n :: ts =>
    (resolvePlaceholder vars env n).data ++ renderTokens vars env ts

/-- `substituteVariables` of `file/otterfile.go`, with the ambient
environment made explicit. -/
def substituteVariables (text : String) (vars : List (String × String))
    (env : Env) : String :=
  String.mk (renderTokens vars env (scanPlaceholders text.data))

/-- The names of the placeholders the regular expression matches in
`text`, in scan order. -/
def textPlaceholders (text : String) : List (List Char) :=
  (scanPlaceholders text.data).filterMap fun t =>
    match t with
    | .nameRef n => some n
    | .lit _ => none

/-- The empty environment: every name unset. -/
def emptyEnv : Env := fun _ => ""

/-- The text a token list was scanned from: a matched placeholder
re-wrapped in its delimiters, literals as themselves. -/
def tokensSourceText : List SubToken → List Char
  | [] => []
  | .lit c :: ts => c :: tokensSourceText ts
  | .nameRef n :: ts => '$' :: '{' :: (n ++ '}' :: tokensSourceText ts)

theorem scanPlaceholders_nil : scanPlaceholders [] = [] := by
  rw [scanPlaceholders.eq_def]

theorem scanPlaceholders_match (rest tail : List Char)
    (heq : rest.dropWhile (· != '}') = '}' :: tail)
    (hne : ¬ (rest.takeWhile (· != '}')).isEmpty = true) :
    scanPlaceholders ('$' :: '{' :: rest) =
      .nameRef (rest.takeWhile (· != '}')) :: scanPlaceholders tail := by
  rw [scanPlaceholders.eq_def]
  simp only
  split
  · rename_i tail2 heq2
    rw [if_neg hne]
    rw [heq] at heq2
    simp only [List.cons.injEq] at heq2
    rw [heq2.2]
  · rename_i hno
    exact absurd heq (hno tail)

theorem scanPlaceholders_skipEmpty (rest tail : List Char)
    (heq : rest.dropWhile (· != '}') = '}' :: tail)
    (hemp : (rest.takeWhile (· != '}')).isEmpty = true) :
    scanPlaceholders ('$' :: '{' :: rest) =
      .lit '$' :: .lit '{' :: scanPlaceholders rest := by
  rw [scanPlaceholders.eq_def]
  simp only
  try split
  all_goals first
  | rw [if_pos hemp]
  | rfl

theorem scanPlaceholders_noClose (rest : List Char)
    (heq : ∀ tail, ¬ rest.dropWhile (· != '}') = '}' :: tail) :
    scanPlaceholders ('$' :: '{' :: rest) =
      .lit '$' :: .lit '{' :: scanPlaceholders rest := by
  rw [scanPlaceholders.eq_def]
  simp only
  try split
  all_goals first
  | rfl
  | (rename_i tail2 heq2; exact absurd heq2 (heq tail2))

theorem scanPlaceholders_other (c : Char) (rest : List Char)
    (h : ∀ rest2, ¬ (c = '$' ∧ rest = '{' :: rest2)) :
    scanPlaceholders (c :: rest) = .lit c :: scanPlaceholders rest := by
  rw [scanPlaceholders.eq_def]
  split
  · rename_i heq
    exact absurd heq (by simp)
  · rename_i rest2 heq
    simp only [List.cons.injEq] at heq
    exact absurd ⟨heq.1, heq.2⟩ (h rest2)
  · rename_i c2 rest2 hno heq
    simp only [List.cons.injEq] at heq
    rw [heq.1, heq.2]

theorem takeWhile_brace_append (l rest : List Char)
    (h : ∀ c ∈ l, (c != '}') = true) :
    (l ++ '}' :: rest).takeWhile (· != '}') = l ∧
      (l ++ '}' :: rest).dropWhile (· != '}') = '}' :: rest := by
  induction l with
  | nil => simp [List.takeWhile, List.dropWhile]
  | cons c cs ih =>
    have hc : (c != '}') = true := h c (by simp)
    have ih' := ih fun x hx => h x (by simp [hx])
    simp [List.takeWhile, List.dropWhile, hc, ih'.1, ih'.2]

theorem scan_sourceText (l : List Char) :
    tokensSourceText (scanPlaceholders l) = l := by
  induction l using scanPlaceholders.induct with
  | case1 => rw [scanPlaceholders_nil]; rfl
  | case2 rest name tail heq hempty ih =>
    rw [scanPlaceholders_skipEmpty rest tail heq hempty]
    simp only [tokensSourceText]
    rw [ih]
  | case3 rest name tail heq hne ih =>
    rw [scanPlaceholders_match rest tail heq hne]
    simp only [tokensSourceText]
    rw [ih]
    have hsplit := List.takeWhile_append_dropWhile (p := (· != '}')) (l := rest)
    rw [heq] at hsplit
    rw [hsplit]
  | case4 rest hno ih =>
    rw [scanPlaceholders_noClose rest (fun tail h => hno tail h)]
    simp only [tokensSourceText]
    rw [ih]
  | case5 c rest hno ih =>
    rw [scanPlaceholders_other c rest (fun r2 hc => hno r2 hc.1 hc.2)]
    simp only [tokensSourceText]
    rw [ih]

/-- Rendering a token list with no matched placeholder reproduces its
source text: the replacement function is only ever applied to matches. -/
theorem renderTokens_no_refs (vars : List (String × String)) (env : Env)
    (ts : List SubToken) (h : ∀ n, SubToken.nameRef n ∉ ts) :
    renderTokens vars env ts = tokensSourceText ts := by
  induction ts with
  | nil => rfl
  | cons t ts ih =>
    cases t with
    | lit c =>
      simp only [renderTokens, tokensSourceText]
      rw [ih fun n hn => h n (List.mem_cons_of_mem _ hn)]
    | nameRef n => exact absurd (List.mem_cons_self _ _) (h n)

theorem textPlaceholders_nil_no_refs (text : String)
    (h : textPlaceholders text = []) :
    ∀ n, SubToken.nameRef n ∉ scanPlaceholders text.data := by
  intro n hn
  have : SubToken.nameRef n ∈ scanPlaceholders text.data := hn
  have hmem : n ∈ textPlaceholders text := by
    simp only [textPlaceholders, List.mem_filterMap]
    exact ⟨SubToken.nameRef n, hn, rfl⟩
  rw [h] at hmem
  exact absurd hmem (List.not_mem_nil n)

/-- Scanning the one-placeholder text built from a non-empty,
brace-free name yields exactly that placeholder. -/
theorem scan_single_placeholder (name : String) (hne : name ≠ "")
    (hnb : ∀ c ∈ name.data, (c != '}') = true) :
    scanPlaceholders ("$\x7b" ++ name ++ "\x7d").data =
      [SubToken.nameRef name.data] := by
  have hdata : ("$\x7b" ++ name ++ "\x7d").data =
      '$' :: '{' :: (name.data ++ '}' :: []) := by
    simp [String.data_append]
  rw [hdata]
  obtain ⟨htake, hdrop⟩ := takeWhile_brace_append name.data [] hnb
  rw [scanPlaceholders_match (name.data ++ '}' :: []) [] hdrop (by
    rw [htake]
    simp only [List.isEmpty_iff]
    intro hcon
    exact hne (by cases name; simp_all))]
  rw [htake, scanPlaceholders_nil]

theorem mem_textPlaceholders (text : String) (n : List Char)
    (hn : SubToken.nameRef n ∈ scanPlaceholders text.data) :
    n ∈ textPlaceholders text := by
  simp only [textPlaceholders, List.mem_filterMap]
  exact ⟨SubToken.nameRef n, hn, rfl⟩

/-- Rendering consults the environment only for placeholders missing from
the configuration map. -/
theorem renderTokens_env_irrelevant (vars : List (String × String))
    (env1 env2 : Env) (ts : List SubToken)
    (h : ∀ n, SubToken.nameRef n ∈ ts → (vars.lookup (String.mk n)).isSome = true) :
    renderTokens vars env1 ts = renderTokens vars env2 ts := by
  induction ts with
  | nil => rfl
  | cons t ts ih =>
    have ihx := ih fun n hn => h n (List.mem_cons_of_mem _ hn)
    cases t with
    | lit c => simp only [renderTokens]; rw [ihx]
    | nameRef n =>
      have hsome := h n (List.mem_cons_self _ _)
      simp only [renderTokens]
      rw [ihx]
      obtain ⟨v, hv⟩ := Option.isSome_iff_exists.mp hsome
      simp only [resolvePlaceholder, hv]

/-- C2.  Three-tier resolution of a `$`-brace placeholder, with the
configuration mapping first, then `OTTER_`-prefixed environment, then
raw environment (empty environment values falling through), an
unresolvable placeholder surviving verbatim; and substitution is the
identity on text in which the placeholder pattern matches nowhere. -/
theorem substituteVariables_three_tier_resolution :
    (∀ (vars : List (String × String)) (env : Env) (name : String),
      name ≠ "" → (∀ c ∈ name.data, (c != '}') = true) →
      ((∀ v, vars.lookup name = some v →
          substituteVariables ("$\x7b" ++ name ++ "\x7d") vars env = v) ∧
       (vars.lookup name = none → env ("OTTER_" ++ goToUpper name) ≠ "" →
          substituteVariables ("$\x7b" ++ name ++ "\x7d") vars env =
            env ("OTTER_" ++ goToUpper name)) ∧
       (vars.lookup name = none → env ("OTTER_" ++ goToUpper name) = "" →
          env name ≠ "" →
          substituteVariables ("$\x7b" ++ name ++ "\x7d") vars env = env name) ∧
       (vars.lookup name = none → env ("OTTER_" ++ goToUpper name) = "" →
          env name = "" →
          substituteVariables ("$\x7b" ++ name ++ "\x7d") vars env =
            "$\x7b" ++ name ++ "\x7d"))) ∧
    (∀ (text : String) (vars : List (String × String)) (env : Env),
      textPlaceholders text = [] → substituteVariables text vars env = text) := by
  constructor
  · intro vars env name hne hnb
    have hscan := scan_single_placeholder name hne hnb
    have hmk : (String.mk name.data) = name := rfl
    refine ⟨?_, ?_, ?_, ?_⟩
    · intro v hv
      rw [substituteVariables, hscan]
      simp only [renderTokens, List.append_nil, resolvePlaceholder, hmk, hv]
    · intro hnone hotter
      rw [substituteVariables, hscan]
      simp only [renderTokens, List.append_nil, resolvePlaceholder, hmk, hnone]
      rw [if_pos (by simpa using hotter)]
    · intro hnone hotter hdirect
      rw [substituteVariables, hscan]
      simp only [renderTokens, List.append_nil, resolvePlaceholder, hmk, hnone]
      rw [if_neg (by simpa using hotter), if_pos (by simpa using hdirect)]
    · intro hnone hotter hdirect
      rw [substituteVariables, hscan]
      simp only [renderTokens, List.append_nil, resolvePlaceholder, hmk, hnone]
      rw [if_neg (by simpa using hotter), if_neg (by simpa using hdirect)]
  · intro text vars env h
    rw [substituteVariables,
      renderTokens_no_refs vars env _ (textPlaceholders_nil_no_refs text h),
      scan_sourceText]

/-- C8.  Noninterference of the environment when the configuration map
covers every placeholder: a mapping entry — even one whose value is the
empty string — shadows the environment completely, so the result of
substitution is identical under any two environments. -/
theorem substituteVariables_mapped_names_shadow_env
    (text : String) (vars : List (String × String)) (env1 env2 : Env)
    (h : ∀ n ∈ textPlaceholders text, (vars.lookup (String.mk n)).isSome = true) :
    substituteVariables text vars env1 = substituteVariables text vars env2 := by
  rw [substituteVariables, substituteVariables,
    renderTokens_env_irrelevant vars env1 env2 _
      (fun n hn => h n (mem_textPlaceholders text n hn))]

/-- Fuel-indexed form of `scanPlaceholders`, used to evaluate the scan
on concrete inputs (the fuel only needs to cover the input length). -/
def scanPlaceholdersF : Nat → List Char → List SubToken
  | 0, _ => []
  | _ + 1, [] => []
  | fuel + 1, '$' :: '{' :: rest =>
    let name := rest.takeWhile (· != '}')
    match rest.dropWhile (· != '}') with
    | '}' :: tail =>
      if name.isEmpty then
        .lit '$' :: .lit '{' :: scanPlaceholdersF fuel rest
      else
        .nameRef name :: scanPlaceholdersF fuel tail
    | _ => .lit '$' :: .lit '{' :: scanPlaceholdersF fuel rest
  | fuel + 1, c :: rest => .lit c :: scanPlaceholdersF fuel rest

theorem scanPlaceholdersF_other (fuel : Nat) (c : Char) (rest : List Char)
    (h : ∀ rest2, ¬ (c = '$' ∧ rest = '{' :: rest2)) :
    scanPlaceholdersF (fuel + 1) (c :: rest) = .lit c :: scanPlaceholdersF fuel rest := by
  rw [scanPlaceholdersF.eq_def]
  split
  · rename_i heq
    exact absurd heq (by omega)
  · rename_i n heq1 heq2
    exact absurd heq2 (by simp)
  · rename_i fuel2 rest2 heq1 heq2
    simp only [List.cons.injEq] at heq2
    exact absurd ⟨heq2.1, heq2.2⟩ (h rest2)
  · rename_i fuel2 c2 rest2 hno heq1 heq2
    simp only [Nat.succ.injEq] at heq1
    simp only [List.cons.injEq] at heq2
    rw [heq1, heq2.1, heq2.2]

theorem scanPlaceholdersF_inner (fuel : Nat) (rest : List Char) :
    scanPlaceholdersF (fuel + 1) ('$' :: '{' :: rest) =
      (let name := rest.takeWhile (· != '}')
       match rest.dropWhile (· != '}') with
       | '}' :: tail =>
         if name.isEmpty then
           .lit '$' :: .lit '{' :: scanPlaceholdersF fuel rest
         else
           .nameRef name :: scanPlaceholdersF fuel tail
       | _ => .lit '$' :: .lit '{' :: scanPlaceholdersF fuel rest) := by
  rw [scanPlaceholdersF.eq_def]
  split
  · rename_i heq
    exact absurd heq (by omega)
  · rename_i n heq1 heq2
    exact absurd heq2 (by simp)
  · rename_i fuel2 rest2 heq1 heq2
    simp only [Nat.succ.injEq] at heq1
    simp only [List.cons.injEq, true_and] at heq2
    rw [heq1, heq2]
  · rename_i fuel2 c2 rest2 hno heq1 heq2
    simp only [List.cons.injEq] at heq2
    exact (hno rest heq2.1.symm heq2.2.symm).elim

theorem dropWhile_cons_head {p : Char → Bool} :
    ∀ (l : List Char) (c : Char) (tail : List Char),
      l.dropWhile p = c :: tail → p c = false := by
  intro l
  induction l with
  | nil =>
    intro c tail h
    exact absurd h (by simp [List.dropWhile])
  | cons x xs ih =>
    intro c tail h
    rw [List.dropWhile_cons] at h
    by_cases hx : p x = true
    · rw [if_pos hx] at h
      exact ih c tail h
    · rw [if_neg hx] at h
      cases h
      simpa using hx

theorem scanPlaceholdersF_eq (fuel : Nat) :
    ∀ (l : List Char), l.length ≤ fuel →
      scanPlaceholdersF fuel l = scanPlaceholders l := by
  induction fuel with
  | zero =>
    intro l hl
    cases l with
    | nil => rw [scanPlaceholders_nil]; rfl
    | cons c rest => simp at hl
  | succ fuel ih =>
    intro l hl
    cases l with
    | nil => rw [scanPlaceholders_nil]; rfl
    | cons c rest =>
      simp only [List.length_cons] at hl
      by_cases hc : c = '$' ∧ ∃ rest2, rest = '{' :: rest2
      · obtain ⟨hc1, rest2, hc2⟩ := hc
        subst hc1
        subst hc2
        simp only [List.length_cons] at hl
        rw [scanPlaceholdersF_inner]
        cases hd : rest2.dropWhile (· != '}') with
        | nil =>
          rw [scanPlaceholders_noClose rest2 (fun tail h => by rw [hd] at h; cases h)]
          simp only [hd]
          rw [ih rest2 (by omega)]
        | cons c2 tail =>
          have hc2f : (c2 != '}') = false := dropWhile_cons_head rest2 c2 tail hd
          have hc2e : c2 = '}' := by simpa using hc2f
          subst hc2e
          have htail : tail.length ≤ fuel := by
            have hlen : ('}' :: tail).length ≤ rest2.length :=
              hd ▸ (List.dropWhile_sublist (· != '}')).length_le
            simp only [List.length_cons] at hlen
            omega
          by_cases hemp : (rest2.takeWhile (· != '}')).isEmpty = true
          · rw [scanPlaceholders_skipEmpty rest2 tail hd hemp]
            simp only [hd]
            rw [if_pos hemp, ih rest2 (by omega)]
          · rw [scanPlaceholders_match rest2 tail hd hemp]
            simp only [hd]
            rw [if_neg hemp, ih tail htail]
      · push_neg at hc
        have hother : ∀ rest2, ¬ (c = '$' ∧ rest = '{' :: rest2) := by
          rintro rest2 ⟨h1, h2⟩
          exact hc h1 rest2 h2
        rw [scanPlaceholders_other c rest hother,
          scanPlaceholdersF_other fuel c rest hother, ih rest (by omega)]

/-- Evaluation form of `substituteVariables`: the scan driven by explicit
fuel, so concrete instances reduce in the kernel. -/
theorem substituteVariables_eval (text : String)
    (vars : List (String × String)) (env : Env) :
    substituteVariables text vars env =
      String.mk (renderTokens vars env
        (scanPlaceholdersF text.data.length text.data)) := by
  rw [substituteVariables, scanPlaceholdersF_eq text.data.length text.data (le_refl _)]

/-- Evaluation form of `textPlaceholders`. -/
theorem textPlaceholders_eval (text : String) :
    textPlaceholders text =
      (scanPlaceholdersF text.data.length text.data).filterMap (fun t =>
        match t with
        | .nameRef n => some n
        | .lit _ => none) := by
  rw [textPlaceholders, scanPlaceholdersF_eq text.data.length text.data (le_refl _)]

/-- A concrete environment used by witnesses: two set variables, the
rest unset. -/
def witnessEnv : Env := fun n =>
  if n = "OTTER_FRAMEWORK" then "react"
  else if n = "DIRECT_VAR" then "direct-value"
  else ""

theorem substituteVariables_three_tier_resolution_witness :
    substituteVariables "$\x7bA\x7d" [("A", "from-config")] witnessEnv = "from-config" ∧
    substituteVariables "$\x7bFRAMEWORK\x7d" [("A", "from-config")] witnessEnv = "react" ∧
    substituteVariables "$\x7bDIRECT_VAR\x7d" [("A", "from-config")] witnessEnv = "direct-value" ∧
    substituteVariables "$\x7bMISSING\x7d" [("A", "from-config")] witnessEnv = "$\x7bMISSING\x7d" ∧
    substituteVariables "plain text" [("A", "from-config")] witnessEnv = "plain text" := by
  have h := substituteVariables_three_tier_resolution
  refine ⟨(h.1 [("A", "from-config")] witnessEnv "A" (by decide) (by decide)).1
      "from-config" (by decide),
    (h.1 [("A", "from-config")] witnessEnv "FRAMEWORK" (by decide) (by decide)).2.1
      (by decide) (by decide),
    (h.1 [("A", "from-config")] witnessEnv "DIRECT_VAR" (by decide) (by decide)).2.2.1
      (by decide) (by decide) (by decide),
    (h.1 [("A", "from-config")] witnessEnv "MISSING" (by decide) (by decide)).2.2.2
      (by decide) (by decide) (by decide),
    h.2 "plain text" [("A", "from-config")] witnessEnv (by rw [textPlaceholders_eval]; decide)⟩

theorem substituteVariables_mapped_names_shadow_env_witness :
    substituteVariables "$\x7bA\x7d/$\x7bEMPTY\x7d" [("A", "x"), ("EMPTY", "")] witnessEnv =
      substituteVariables "$\x7bA\x7d/$\x7bEMPTY\x7d" [("A", "x"), ("EMPTY", "")] emptyEnv :=
  substituteVariables_mapped_names_shadow_env _ _ _ _ (by
    rw [textPlaceholders_eval]
    decide)

/-!
## Ignore-set algebra and the merge walk (`FileOperations.CopyLayer`)
-/

/-- Membership characterization of `isIgnoredWithPatterns`. -/
theorem isIgnoredWithPatterns_iff (relativePath : String)
    (patterns : List String) :
    isIgnoredWithPatterns relativePath patterns = true ↔
      ∃ pattern ∈ patterns, matchPattern pattern relativePath = true := by
  simp [isIgnoredWithPatterns, List.any_eq_true]

/-- C7.  The ignored-or-not outcome depends only on the set of patterns:
any permutation of any concatenation order of the three pattern lists
gives the same verdict, because matching is existential over the list. -/
theorem isIgnored_concat_order_invariant
    (relativePath : String) (a b c : List String) (l : List String)
    (hperm : l.Perm (a ++ b ++ c)) :
    isIgnoredWithPatterns relativePath l =
      isIgnoredWithPatterns relativePath (a ++ b ++ c) ∧
    (isIgnoredWithPatterns relativePath l = true ↔
      ∃ pattern ∈ l, matchPattern pattern relativePath = true) := by
  constructor
  · cases h1 : isIgnoredWithPatterns relativePath l with
    | true =>
      obtain ⟨p, hp, hm⟩ := (isIgnoredWithPatterns_iff _ _).mp h1
      exact ((isIgnoredWithPatterns_iff _ _).mpr ⟨p, hperm.mem_iff.mp hp, hm⟩).symm
    | false =>
      cases h2 : isIgnoredWithPatterns relativePath (a ++ b ++ c) with
      | true =>
        obtain ⟨p, hp, hm⟩ := (isIgnoredWithPatterns_iff _ _).mp h2
        have := (isIgnoredWithPatterns_iff relativePath l).mpr
          ⟨p, hperm.mem_iff.mpr hp, hm⟩
        rw [h1] at this
        cases this
      | false => rfl
  · exact isIgnoredWithPatterns_iff relativePath l

theorem isIgnored_concat_order_invariant_witness :
    isIgnoredWithPatterns "debug.log"
        (criticalIgnorePatterns ++ ["temp/"] ++ ["*.log"]) =
      isIgnoredWithPatterns "debug.log"
        (["*.log"] ++ ["temp/"] ++ criticalIgnorePatterns) ∧
    (isIgnoredWithPatterns "debug.log"
        (criticalIgnorePatterns ++ ["temp/"] ++ ["*.log"]) = true ↔
      ∃ pattern ∈ criticalIgnorePatterns ++ ["temp/"] ++ ["*.log"],
        matchPattern pattern "debug.log" = true) :=
  isIgnored_concat_order_invariant "debug.log" ["*.log"] ["temp/"]
    criticalIgnorePatterns _ (by decide)

/-- One entry of the `filepath.Walk` traversal of a layer: its path
relative to the layer root, and whether it is a directory. -/
structure WalkEntry where
  rel : String
  isDir : Bool
deriving DecidableEq, Repr

/-- Whether `rel` lies strictly under the directory `dir`. -/
def isUnderDir (dir rel : String) : Bool :=
  goHasPrefix rel (dir ++ "/")

/-- The relative paths `CopyLayer`'s walk copies into the target, for a
traversal (in walk order) of the layer tree: an ignored file is skipped,
an ignored directory prunes its whole subtree (`filepath.SkipDir`), and
every other entry is copied. -/
def copyLayerPaths (patterns : List String) : List WalkEntry → List String
  | [] => []
  | e :: rest =>
    if isIgnoredWithPatterns e.rel patterns then
      if e.isDir then
        copyLayerPaths patterns (rest.filter (fun x => !(isUnderDir e.rel x.rel)))
      else
        copyLayerPaths patterns rest
    else
      e.rel :: copyLayerPaths patterns rest
termination_by es => es.length
decreasing_by
  · exact Nat.lt_succ_of_le (List.length_filter_le _ _)
  · simp only [List.length_cons]; omega
  · simp only [List.length_cons]; omega

/-- Every path the walk copies failed the combined ignore check. -/
theorem mem_copyLayerPaths_not_ignored (patterns : List String) :
    ∀ (entries : List WalkEntry) (p : String),
      p ∈ copyLayerPaths patterns entries →
      isIgnoredWithPatterns p patterns = false := by
  intro entries
  induction entries using copyLayerPaths.induct patterns with
  | case1 =>
    intro p hp
    rw [copyLayerPaths] at hp
    cases hp
  | case2 e rest hig hdir ih =>
    intro p hp
    rw [copyLayerPaths] at hp
    rw [if_pos hig, if_pos hdir] at hp
    exact ih p hp
  | case3 e rest hig hdir ih =>
    intro p hp
    rw [copyLayerPaths] at hp
    rw [if_pos hig, if_neg hdir] at hp
    exact ih p hp
  | case4 e rest hig ih =>
    intro p hp
    rw [copyLayerPaths] at hp
    rw [if_neg hig] at hp
    cases hp with
    | head => simpa using hig
    | tail _ hp2 => exact ih p hp2

/-- C1.  Under every combination of project-level and layer-level ignore
lists, the merge walk never copies a path matched by one of the fixed
critical patterns: the critical patterns are always appended to the
combined set. -/
theorem copyLayer_critical_never_copied
    (projectPatterns layerPatterns : List String) (entries : List WalkEntry)
    (p : String)
    (hcrit : ∃ cpat ∈ criticalIgnorePatterns, matchPattern cpat p = true) :
    p ∉ copyLayerPaths (combinedPatterns projectPatterns layerPatterns) entries := by
  intro hmem
  have hnot := mem_copyLayerPaths_not_ignored _ entries p hmem
  obtain ⟨cpat, hc, hm⟩ := hcrit
  have hig : isIgnoredWithPatterns p
      (combinedPatterns projectPatterns layerPatterns) = true :=
    (isIgnoredWithPatterns_iff _ _).mpr
      ⟨cpat, by simp [combinedPatterns, hc], hm⟩
  rw [hnot] at hig
  cases hig

theorem copyLayer_critical_never_copied_witness :
    ".git/config" ∉ copyLayerPaths (combinedPatterns ["README.md"] ["LICENSE"])
      [⟨".git", true⟩, ⟨".git/config", false⟩, ⟨"FOO.md", false⟩,
       ⟨".otter", true⟩, ⟨".otter/cache.json", false⟩] ∧
    ".otter/cache.json" ∉ copyLayerPaths (combinedPatterns [] [])
      [⟨".otter", true⟩, ⟨".otter/cache.json", false⟩] :=
  ⟨copyLayer_critical_never_copied ["README.md"] ["LICENSE"] _ _
      ⟨".git", by decide, by decide⟩,
    copyLayer_critical_never_copied [] [] _ _
      ⟨".otter", by decide, by decide⟩⟩

/-- C10 counterexample: the pattern `"foo*"` is in the claimed class
(contains `'*'`, is not `"*"`, does not begin `"*."`), and wildcard
matching with it indeed rejects every path — but it still causes a file
to be ignored, through `matchPattern`'s exact-equality branch, when the
path is literally `"foo*"`. -/
theorem matchWildcard_nonsuffix_counterexample :
    ("foo*".data.contains '*') = true ∧
    "foo*" ≠ "*" ∧
    goHasPrefix "foo*" "*." = false ∧
    matchWildcard "foo*" "foo*" = false ∧
    matchPattern "foo*" "foo*" = true ∧
    isIgnoredWithPatterns "foo*" ["foo*"] = true := by
  decide

/-- C10 amended: a pattern containing `'*'` that is neither `"*"` nor of
the `"*.suffix"` form matches no path under wildcard matching; and if it
also does not end in `"/"`, the only path the full pattern match accepts
is the path literally equal to the pattern. -/
theorem matchWildcard_nonsuffix_never_matches (pattern path : String)
    (hstar : pattern.data.contains '*' = true)
    (hne : pattern ≠ "*")
    (hnp : goHasPrefix pattern "*." = false) :
    matchWildcard pattern path = false ∧
    (goHasSuffix pattern "/" = false →
      (matchPattern pattern path = true ↔ path = pattern)) := by
  have hmw : matchWildcard pattern path = false := by
    rw [matchWildcard, if_neg hne, if_neg (by simp [hnp])]
  refine ⟨hmw, ?_⟩
  intro hsuf
  by_cases hpp : pattern = path
  · rw [matchPattern, if_pos hpp]
    simp [hpp]
  · rw [matchPattern, if_neg hpp, if_neg (by simp [hsuf]), if_pos hstar, hmw]
    simp
    exact fun hcon => absurd hcon.symm hpp

theorem matchWildcard_nonsuffix_never_matches_witness :
    matchWildcard "src/*" "src/a" = false ∧
    (matchPattern "src/*" "src/a" = true ↔ "src/a" = "src/*") :=
  ⟨(matchWildcard_nonsuffix_never_matches "src/*" "src/a"
      (by decide) (by decide) (by decide)).1,
    (matchWildcard_nonsuffix_never_matches "src/*" "src/a"
      (by decide) (by decide) (by decide)).2 (by decide)⟩

/-!
## Layer Source Resolver revision retrieval
(`util` package, `GitOperations.GetRepositoryCommit`)
-/

/-- Outcome of `os.Stat` on one path. -/
inductive StatRes where
  | found
  | notExist
  | otherErr
deriving DecidableEq, Repr

/-- The filesystem facts `GetRepositoryCommit` consults: `os.Stat`
answers per path, and the combined `git.PlainOpen` + `Head` chain per
repository path. -/
structure GitFS where
  stat : String → StatRes
  headCommit : String → Except String String

/-- `GitOperations.GetRepositoryCommit`: stat `<localPath>/.git`; a
not-exist answer yields the sentinel `"local-dir"` with no error, any
other stat failure is returned as an error, and otherwise the repository
head commit is read. -/
def GetRepositoryCommit (fs : GitFS) (localPath : String) :
    Except String String :=
  match fs.stat (localPath ++ "/.git") with
  | .notExist => .ok "local-dir"
  | .otherErr => .error "stat failed"
  | .found => fs.headCommit localPath

/-- A filesystem on which nothing exists at all. -/
def missingFS : GitFS :=
  { stat := fun _ => .notExist,
    headCommit := fun _ => .error "repository does not exist" }

/-- C3 counterexample: on a filesystem where the queried path does not
exist (so neither does its `.git` entry), revision retrieval returns the
sentinel `"local-dir"` with no error — not the hard error the claim
requires for non-existent paths. -/
theorem getRepositoryCommit_nonexistent_counterexample :
    missingFS.stat "/nonexistent" = .notExist ∧
    GetRepositoryCommit missingFS "/nonexistent" = .ok "local-dir" ∧
    ∀ e, GetRepositoryCommit missingFS "/nonexistent" ≠ .error e := by
  refine ⟨rfl, rfl, ?_⟩
  intro e h
  cases h

/-- C3 amended: whenever the stat of `<path>/.git` reports not-exist —
which covers both an existing directory that is not a git repository and
a path that does not exist at all — retrieval returns the sentinel
`"local-dir"` and no error; errors arise only from other stat failures
or from reading git metadata. -/
theorem getRepositoryCommit_sentinel (fs : GitFS) (localPath : String)
    (h : fs.stat (localPath ++ "/.git") = .notExist) :
    GetRepositoryCommit fs localPath = .ok "local-dir" := by
  rw [GetRepositoryCommit, h]

/-- A filesystem with one existing plain directory that is not a git
repository. -/
def plainDirFS : GitFS :=
  { stat := fun p => if p = "/layers/plain" then .found else .notExist,
    headCommit := fun _ => .error "not a repository" }

theorem getRepositoryCommit_sentinel_witness :
    GetRepositoryCommit plainDirFS "/layers/plain" = .ok "local-dir" :=
  getRepositoryCommit_sentinel plainDirFS "/layers/plain" (by decide)

/-!
## Template rendering (`FileOperations.copyFile` / `processTemplate`)

The source hands the file content to Go `text/template` (`Parse` then
`Execute`, default options) with the layer template variables as the
data map.  We model the fragment the configuration language produces:
literal text interleaved with field actions
`\x7b\x7b . <identifier> \x7d\x7d` (optional spaces).  Go's template
lexer treats `'.'` followed by a digit as the start of a *number*
literal, not a field, so a field reference's name necessarily begins
with a non-digit; the model only accepts names beginning with a letter
or underscore, and maps every other action — number literals, the bare
dot, pipelines — to a parse failure, declaring them outside the
modelled fragment (no theorem below concerns them).  With the default
`missingkey` option, text/template renders a field absent from a map as
the marker `<no value>` — the documented behavior this model follows. -/

/-- One parsed template element: a literal character or a field action
naming a map entry. -/
inductive TmplToken where
  | lit (c : Char)
  | field (name : String)
deriving DecidableEq, Repr

/-- Characters accepted in a field identifier. -/
def isTemplateIdentChar (c : Char) : Bool :=
  c.isAlphanum || c = '_'

/-- Characters a field identifier may begin with: the lexer only enters
field lexing when the character after `'.'` is not a digit (a digit
starts a number literal instead). -/
def isTemplateIdentStart (c : Char) : Bool :=
  c.isAlpha || c = '_'

/-- text/template field execution over a string map with default
options: present keys render their value, missing keys render the
`<no value>` marker. -/
def execTemplateField (vars : List (String × String)) (name : String) :
    String :=
  match vars.lookup name with
  | some v => v
  | none => "<no value>"

/-- Render a parsed template against the variable map. -/
def renderTemplateTokens (vars : List (String × String)) :
    List TmplToken → List Char
  | [] => []
  | .lit c :: ts => c :: renderTemplateTokens vars ts
  | .field n :: ts =>
    (execTemplateField vars n).data ++ renderTemplateTokens vars ts

/-- Fuel-indexed scan of the supported template fragment; `none` models
a template parse error. -/
def scanTemplateAux : Nat → List Char → Option (List TmplToken)
  | 0, [] => some []
  | 0, _ :: _ => none
  | _ + 1, [] => some []
  | fuel + 1, '{' :: '{' :: rest =>
    (match rest.dropWhile (· == ' ') with
     | '.' :: r2 =>
       (match r2 with
        | [] => none
        | c0 :: _ =>
          if !isTemplateIdentStart c0 then none
          else
            let ident := r2.takeWhile isTemplateIdentChar
            (match (r2.dropWhile isTemplateIdentChar).dropWhile (· == ' ') with
             | '}' :: '}' :: tail =>
               if ident.isEmpty then none
               else (scanTemplateAux fuel tail).map (.field (String.mk ident) :: ·)
             | _ => none))
     | _ => none)
  | fuel + 1, c :: rest => (scanTemplateAux fuel rest).map (.lit c :: ·)

/-- `FileOperations.processTemplate`: parse the content, execute it
against the supplied variables. -/
def processTemplate (content : String)
    (templateVars : List (String × String)) : Except String String :=
  match scanTemplateAux content.data.length content.data with
  | none => .error "failed to parse template"
  | some toks => .ok (String.mk (renderTemplateTokens templateVars toks))

/-- `FileOperations.containsTemplateSyntax` (renamed): content holds
template markup when both double-brace delimiters occur. -/
def containsTemplateDelims (content : String) : Bool :=
  goContains content "\x7b\x7b" && goContains content "\x7d\x7d"

/-- The content transformation of `FileOperations.copyFile`: render as a
template exactly when template variables were supplied and the content
carries template markup, else copy the bytes unchanged. -/
def copyFileContent (content : String)
    (templateVars : List (String × String)) : Except String String :=
  if templateVars.length > 0 && containsTemplateDelims content then
    processTemplate content templateVars
  else
    .ok content

/-- C4 counterexample: a file whose content references `.name` rendered
with a non-empty variable mapping that does not supply `name` is written
with the `<no value>` marker substituted — the reference is not left as
literal text. -/
theorem copyFile_missing_variable_counterexample :
    copyFileContent "hello \x7b\x7b.name\x7d\x7d" [("other", "x")] =
      .ok "hello <no value>" ∧
    ("hello <no value>" : String) ≠ "hello \x7b\x7b.name\x7d\x7d" := by
  constructor
  · rfl
  · decide

/-- `.1x` is no field reference: as in Go (where the lexer reads a
malformed number literal and parsing fails), the scan reports a parse
error. -/
example :
    processTemplate ("\x7b\x7b." ++ "1x" ++ "\x7d\x7d") [("1x", "v")] =
      .error "failed to parse template" := by
  rfl

theorem takeWhile_ident_append (l rest : List Char)
    (h : ∀ c ∈ l, isTemplateIdentChar c = true) :
    (l ++ '}' :: rest).takeWhile isTemplateIdentChar = l ∧
      (l ++ '}' :: rest).dropWhile isTemplateIdentChar = '}' :: rest := by
  induction l with
  | nil => simp [List.takeWhile, List.dropWhile, isTemplateIdentChar]
  | cons c cs ih =>
    have hc : isTemplateIdentChar c = true := h c (by simp)
    have ih2 := ih fun x hx => h x (by simp [hx])
    simp [List.takeWhile, List.dropWhile, hc, ih2.1, ih2.2]

theorem scanTemplateAux_action (fuel : Nat) (name tail2 : List Char)
    (hne : ¬ name.isEmpty = true)
    (hstart : isTemplateIdentStart (name.headD ' ') = true)
    (hid : ∀ c ∈ name, isTemplateIdentChar c = true) :
    scanTemplateAux (fuel + 1)
        ('{' :: '{' :: ('.' :: (name ++ '}' :: '}' :: tail2))) =
      (scanTemplateAux fuel tail2).map (.field (String.mk name) :: ·) := by
  obtain ⟨htake, hdrop⟩ := takeWhile_ident_append name ('}' :: tail2) hid
  rw [scanTemplateAux.eq_def]
  simp only []
  rw [List.dropWhile_cons]
  rw [if_neg (by decide : ¬ (('.' == ' ') = true))]
  simp only []
  rw [htake, hdrop]
  rw [List.dropWhile_cons]
  rw [if_neg (by decide : ¬ (('}' == ' ') = true))]
  simp only []
  rw [if_neg hne]
  cases name with
  | nil => exact absurd rfl hne
  | cons c0 rest0 =>
    rw [List.cons_append]
    simp only []
    rw [if_neg (by
      simp only [List.headD_cons] at hstart
      simp [hstart])]

theorem listHasInfix_suffix (sub : List Char) :
    ∀ (l1 l2 : List Char), listHasInfix sub l2 = true →
      listHasInfix sub (l1 ++ l2) = true := by
  intro l1
  induction l1 with
  | nil => intro l2 h; simpa using h
  | cons c cs ih =>
    intro l2 h
    rw [List.cons_append, listHasInfix]
    exact Bool.or_eq_true_iff.mpr (Or.inr (ih l2 h))

theorem scanTemplateAux_nil (fuel : Nat) :
    scanTemplateAux fuel [] = some [] := by
  cases fuel <;> rfl

/-- C4 amended: rendering a field reference (an identifier beginning
with a letter or underscore — `'.'` followed by a digit would lex as a
number, not a field) replaces it with the mapped value when the
variable is supplied, and with the `<no value>` marker — not the
literal reference text — when it is not; no error is raised either way,
and `copyFile` takes this rendering path whenever the variable mapping
is non-empty (the content shown contains both delimiters). -/
theorem processTemplate_field_rendering (vars : List (String × String))
    (name : String) (hne : name ≠ "")
    (hstart : isTemplateIdentStart (name.data.headD ' ') = true)
    (hid : ∀ c ∈ name.data, isTemplateIdentChar c = true) :
    processTemplate ("\x7b\x7b." ++ name ++ "\x7d\x7d") vars =
      .ok (execTemplateField vars name) ∧
    (∀ v, vars.lookup name = some v → execTemplateField vars name = v) ∧
    (vars.lookup name = none → execTemplateField vars name = "<no value>") ∧
    (vars.length > 0 →
      copyFileContent ("\x7b\x7b." ++ name ++ "\x7d\x7d") vars =
        .ok (execTemplateField vars name)) := by
  have hne2 : ¬ name.data.isEmpty = true := by
    simp only [List.isEmpty_iff]
    intro hcon
    exact hne (by cases name; simp_all)
  have hdata : ("\x7b\x7b." ++ name ++ "\x7d\x7d").data =
      '{' :: '{' :: ('.' :: (name.data ++ '}' :: '}' :: [])) := by
    simp [String.data_append]
  have hmain : processTemplate ("\x7b\x7b." ++ name ++ "\x7d\x7d") vars =
      .ok (execTemplateField vars name) := by
    unfold processTemplate
    rw [hdata]
    have hl2 : ('{' :: '{' :: ('.' :: (name.data ++ '}' :: '}' :: []))).length =
        name.data.length + 4 + 1 := by
      simp [List.length_cons, List.length_append]
    rw [hl2]
    rw [scanTemplateAux_action (name.data.length + 4) name.data [] hne2 hstart hid]
    rw [scanTemplateAux_nil]
    simp only [Option.map]
    simp [renderTemplateTokens, List.append_nil]
  refine ⟨hmain, ?_, ?_, ?_⟩
  · intro v hv
    simp [execTemplateField, hv]
  · intro hnone
    simp [execTemplateField, hnone]
  · intro hvars
    rw [copyFileContent]
    rw [if_pos ?side]
    · exact hmain
    case side =>
      have hsplitData : ("\x7b\x7b." ++ name ++ "\x7d\x7d").data =
          ('{' :: '{' :: '.' :: name.data) ++ ['}', '}'] := by
        rw [hdata]
        simp
      have hopen : goContains ("\x7b\x7b." ++ name ++ "\x7d\x7d") "\x7b\x7b" = true := by
        rw [goContains, hdata]
        rw [listHasInfix]
        simp [List.isPrefixOf]
      have hclose : goContains ("\x7b\x7b." ++ name ++ "\x7d\x7d") "\x7d\x7d" = true := by
        rw [goContains, hsplitData]
        exact listHasInfix_suffix _ _ _ (by decide)
      simp [containsTemplateDelims, hopen, hclose, hvars]

theorem processTemplate_field_rendering_witness :
    processTemplate ("\x7b\x7b." ++ "app" ++ "\x7d\x7d") [("app", "demo")] =
      .ok "demo" ∧
    processTemplate ("\x7b\x7b." ++ "app" ++ "\x7d\x7d") [("other", "x")] =
      .ok "<no value>" :=
  ⟨(processTemplate_field_rendering [("app", "demo")] "app"
      (by decide) (by decide) (by decide)).1.trans rfl,
    (processTemplate_field_rendering [("other", "x")] "app"
      (by decide) (by decide) (by decide)).1.trans rfl⟩

/-!
## Hook Executor (`util` package, `CommandExecutor`)
-/

/-- `CommandExecutor.ExecuteCommand` with the shell made explicit: an
empty command string is rejected up front; otherwise the shell's outcome
for the command is returned. -/
def ExecuteCommand (shell : String → Except String Unit)
    (command : String) : Except String Unit :=
  if command = "" then .error "empty command" else shell command

/-- The error message `ExecuteCommands` wraps a failing command in. -/
def cmdFailureMessage (context command msg : String) : String :=
  "failed to execute " ++ context ++ " command \x27" ++ command ++
    "\x27: " ++ msg

/-- `CommandExecutor.ExecuteCommands`, instrumented with the list of
commands actually handed to `ExecuteCommand` (first component): the
empty list is an immediate success; otherwise commands run in order and
the first failure stops the run with a message naming that command. -/
def ExecuteCommands (shell : String → Except String Unit)
    (commands : List String) (context : String) :
    List String × Except String Unit :=
  match commands with
  | [] => ([], .ok ())
  | command :: rest =>
    match ExecuteCommand shell command with
    | .error e => ([command], .error (cmdFailureMessage context command e))
    | .ok _ =>
      let r := ExecuteCommands shell rest context
      (command :: r.1, r.2)

/-- C6.  If the `k`-th command (0-based) is the first to fail, exactly
commands `0..k` are executed — nothing after the failure — and the
result is an error naming the failing command; the empty list executes
nothing and succeeds. -/
theorem executeCommands_stop_on_first_failure
    (shell : String → Except String Unit) (context : String) :
    (∀ (commands : List String) (k : Nat) (hk : k < commands.length)
        (e : String),
      (∀ j (hj : j < k),
        ExecuteCommand shell (commands.get ⟨j, lt_trans hj hk⟩) = .ok ()) →
      ExecuteCommand shell (commands.get ⟨k, hk⟩) = .error e →
      ExecuteCommands shell commands context =
        (commands.take (k + 1),
         .error (cmdFailureMessage context (commands.get ⟨k, hk⟩) e))) ∧
    ExecuteCommands shell [] context = ([], .ok ()) := by
  constructor
  · intro commands
    induction commands with
    | nil =>
      intro k hk
      simp at hk
    | cons c rest ih =>
      intro k hk e hok hfail
      cases k with
      | zero =>
        have hfail2 : ExecuteCommand shell c = .error e := hfail
        rw [ExecuteCommands, hfail2]
        simp [List.take, List.get]
      | succ k2 =>
        have h0 : ExecuteCommand shell c = .ok () := hok 0 (Nat.succ_pos k2)
        rw [ExecuteCommands, h0]
        have hk2 : k2 < rest.length := by simpa using hk
        have hfail2 : ExecuteCommand shell (rest.get ⟨k2, hk2⟩) = .error e := hfail
        have hrec := ih k2 hk2 e
          (fun j hj => hok (j + 1) (by omega))
          hfail2
        rw [hrec]
        simp [List.take, List.get]
  · rfl

/-- A shell in which exactly the command `"false"` fails. -/
def witnessShell : String → Except String Unit := fun command =>
  if command = "false" then .error "exit status 1" else .ok ()

theorem executeCommands_stop_on_first_failure_witness :
    ExecuteCommands witnessShell ["true", "false", "echo unreachable"]
        "BEFORE" =
      (["true", "false"],
       .error (cmdFailureMessage "BEFORE" "false" "exit status 1")) ∧
    ExecuteCommands witnessShell [] "BEFORE" = ([], .ok ()) :=
  ⟨(executeCommands_stop_on_first_failure witnessShell "BEFORE").1
      ["true", "false", "echo unreachable"] 1 (by decide) "exit status 1"
      (by
        intro j hj
        interval_cases j
        · rfl)
      rfl,
    (executeCommands_stop_on_first_failure witnessShell "BEFORE").2⟩

/-!
## Configuration Parser (`file` package, `otterfile.go`)

`VAR` and `LAYER` statement parsing, over the already-tokenized argument
list (`strings.Fields` output).  Go's `map[string]string` assignment is
modelled by `upsert`; `encoding/json` unmarshalling of a `[]string` is
modelled by `parseJSONStringArray` (common escapes; `\u` escapes are not
modelled).
-/

/-- One declared layer (`file.Layer`). -/
structure Layer where
  Repository : String
  Target : String
  Condition : String
  Template : List (String × String)
  Before : List String
  After : List String
deriving DecidableEq, Repr

/-- The parsed build plan (`file.OtterfileConfig`). -/
structure OtterfileConfig where
  Variables : List (String × String)
  Layers : List Layer
  OnBeforeBuild : List String
  OnAfterBuild : List String
  OnError : List String
deriving DecidableEq, Repr

/-- Go map assignment `m[key] = value`: replace an existing binding,
else append a new one. -/
def upsert (m : List (String × String)) (key value : String) :
    List (String × String) :=
  match m with
  | [] => [(key, value)]
  | (k, v) :: rest =>
    if k = key then (k, value) :: rest else (k, v) :: upsert rest key value

/-- `parseVarCommand`: rejoin the arguments, split at the first `'='`,
trim both sides, reject an empty name, resolve the value against the
variables defined so far, and store it. -/
def parseVarCommand (env : Env) (args : List String)
    (config : OtterfileConfig) : Except String OtterfileConfig :=
  if args.isEmpty then
    .error "VAR command requires a variable definition"
  else
    let varDef := joinSpace args
    match splitFirstEq varDef with
    | none => .error ("VAR command must be in format KEY=VALUE, got: " ++ varDef)
    | some (lhs, rhs) =>
      let key := trimSpace lhs
      let value := trimSpace rhs
      if key = "" then
        .error "variable name cannot be empty"
      else
        let resolvedValue := substituteVariables value config.Variables env
        .ok { config with Variables := upsert config.Variables key resolvedValue }

/-- One character of a JSON string escape sequence (`\u` not modelled). -/
def jsonUnescapeChar (c : Char) : Option Char :=
  if c = '"' then some '"'
  else if c = '\\' then some '\\'
  else if c = '/' then some '/'
  else if c = 'b' then some (Char.ofNat 8)
  else if c = 'f' then some (Char.ofNat 12)
  else if c = 'n' then some (Char.ofNat 10)
  else if c = 'r' then some (Char.ofNat 13)
  else if c = 't' then some (Char.ofNat 9)
  else none

/-- Parse the remainder of a JSON string (after its opening quote):
returns the decoded content and the input following the closing quote. -/
def parseJSONString : List Char → Option (List Char × List Char)
  | [] => none
  | '"' :: rest => some ([], rest)
  | '\\' :: [] => none
  | '\\' :: c :: rest =>
    match jsonUnescapeChar c with
    | some d => (parseJSONString rest).map (fun p => (d :: p.1, p.2))
    | none => none
  | c :: rest => (parseJSONString rest).map (fun p => (c :: p.1, p.2))

/-- Whitespace skipped between JSON tokens. -/
def skipJSONWS (l : List Char) : List Char :=
  l.dropWhile (fun c => c = ' ' || c = Char.ofNat 9 || c = Char.ofNat 10 || c = Char.ofNat 13)

/-- Parse the comma-separated strings of a JSON array, after its `'['`
(at least one element; fuel bounds the element count). -/
def parseJSONArrayItems : Nat → List Char → Option (List String × List Char)
  | 0, _ => none
  | fuel + 1, l =>
    match skipJSONWS l with
    | '"' :: rest =>
      match parseJSONString rest with
      | none => none
      | some (s, r) =>
        match skipJSONWS r with
        | ',' :: r2 =>
          (parseJSONArrayItems fuel r2).map (fun p => (String.mk s :: p.1, p.2))
        | ']' :: r2 => some ([String.mk s], r2)
        | _ => none
    | _ => none

/-- Model of `json.Unmarshal` into `[]string`: a complete JSON array of
strings with nothing but whitespace after it. -/
def parseJSONStringArray (s : String) : Except String (List String) :=
  match skipJSONWS s.data with
  | '[' :: rest =>
    (match skipJSONWS rest with
     | ']' :: r2 =>
       if (skipJSONWS r2).isEmpty then .ok []
       else .error "unexpected trailing data"
     | _ =>
       match parseJSONArrayItems s.data.length rest with
       | some (xs, r2) =>
         if (skipJSONWS r2).isEmpty then .ok xs
         else .error "unexpected trailing data"
       | none => .error "failed to parse JSON array")
  | _ => .error "failed to parse JSON array"

/-- The contiguous `key=value` tokens consumed by a `TEMPLATE` keyword,
applied to the template map in order. -/
def insertTemplateVars (m : List (String × String)) :
    List String → List (String × String)
  | [] => m
  | t :: rest =>
    match splitFirstEq t with
    | some (k, v) => insertTemplateVars (upsert m (trimSpace k) (trimSpace v)) rest
    | none => insertTemplateVars m rest

/-- The tokens from the start of a `BEFORE`/`AFTER` JSON array up to and
including the first token that ends in `"]"`, plus the tokens after it;
`none` when no token closes the array. -/
def takeUntilCloseBracket : List String → Option (List String × List String)
  | [] => none
  | t :: rest =>
    if goHasSuffix t "]" then some ([t], rest)
    else (takeUntilCloseBracket rest).map (fun p => (t :: p.1, p.2))

theorem takeUntilCloseBracket_shorter :
    ∀ (l toks rest : List String),
      takeUntilCloseBracket l = some (toks, rest) → rest.length < l.length := by
  intro l
  induction l with
  | nil =>
    intro toks rest h
    cases h
  | cons t l2 ih =>
    intro toks rest h
    rw [takeUntilCloseBracket] at h
    by_cases hs : goHasSuffix t "]" = true
    · rw [if_pos hs] at h
      cases h
      simp
    · rw [if_neg hs] at h
      cases h2 : takeUntilCloseBracket l2 with
      | none => rw [h2] at h; cases h
      | some p =>
        rw [h2] at h
        cases h
        have := ih p.1 p.2 (by rw [h2])
        simp only [List.length_cons]
        omega

/-- The keyword loop of `parseLayerCommand`, translated from the indexed
loop over `args[1:]`: `TARGET`/`IF` consume one value token,
`TEMPLATE` consumes the following contiguous `key=value` tokens,
`BEFORE`/`AFTER` consume tokens up to the first one ending in `"]"` and
parse them as a JSON string array, and any other token is a fatal
error. -/
def parseLayerArgs : List String → Layer → Except String Layer
  | [], layer => .ok layer
  | arg :: rest, layer =>
    if goToUpper arg = "TARGET" then
      match rest with
      | [] => .error "TARGET requires a path argument"
      | path :: rest2 => parseLayerArgs rest2 { layer with Target := path }
    else if goToUpper arg = "IF" then
      match rest with
      | [] => .error "IF requires a condition argument"
      | cond :: rest2 => parseLayerArgs rest2 { layer with Condition := cond }
    else if goToUpper arg = "TEMPLATE" then
      match rest with
      | [] => .error "TEMPLATE requires template variable assignments"
      | tok :: more =>
        let newTemplate := insertTemplateVars layer.Template
          ((tok :: more).takeWhile (fun a => a.data.contains '='))
        parseLayerArgs ((tok :: more).dropWhile (fun a => a.data.contains '='))
          { layer with Template := newTemplate }
    else if goToUpper arg = "BEFORE" then
      match rest with
      | [] => .error "BEFORE requires a command array"
      | first :: more =>
        if !goHasPrefix first "[" then
          .error "BEFORE commands must be in JSON array format"
        else
          match h : takeUntilCloseBracket (first :: more) with
          | none => .error "BEFORE command array not properly closed"
          | some (toks, rest2) =>
            match parseJSONStringArray (joinSpace toks) with
            | .error e => .error ("failed to parse BEFORE commands: " ++ e)
            | .ok cmds => parseLayerArgs rest2 { layer with Before := cmds }
    else if goToUpper arg = "AFTER" then
      match rest with
      | [] => .error "AFTER requires a command array"
      | first :: more =>
        if !goHasPrefix first "[" then
          .error "AFTER commands must be in JSON array format"
        else
          match h : takeUntilCloseBracket (first :: more) with
          | none => .error "AFTER command array not properly closed"
          | some (toks, rest2) =>
            match parseJSONStringArray (joinSpace toks) with
            | .error e => .error ("failed to parse AFTER commands: " ++ e)
            | .ok cmds => parseLayerArgs rest2 { layer with After := cmds }
    else
      .error ("unknown LAYER argument: " ++ arg)
termination_by l _ => l.length
decreasing_by
  · simp only [List.length_cons]; omega
  · simp only [List.length_cons]; omega
  · have hle : ∀ (l : List String),
        (List.dropWhile (fun a : String => a.data.contains '=') l).length ≤ l.length :=
      fun l => (List.dropWhile_sublist _).length_le
    exact lt_of_le_of_lt (hle _) (by simp only [List.length_cons]; omega)
  · have := takeUntilCloseBracket_shorter _ _ _ h
    simp only [List.length_cons] at this ⊢
    omega
  · have := takeUntilCloseBracket_shorter _ _ _ h
    simp only [List.length_cons] at this ⊢
    omega

/-- `parseLayerCommand`: the first token is the source; the remaining
keyword arguments build up the layer; then source, target and template
values are variable-substituted and the finished layer is appended to
the configuration's layer list. -/
def parseLayerCommand (env : Env) (args : List String)
    (config : OtterfileConfig) : Except String OtterfileConfig :=
  match args with
  | [] => .error "LAYER command requires a repository URL"
  | source :: rest =>
    match parseLayerArgs rest
        { Repository := source, Target := ".", Condition := "",
          Template := [], Before := [], After := [] } with
    | .error e => .error e
    | .ok layer =>
      let finished : Layer :=
        { layer with
          Repository := substituteVariables layer.Repository config.Variables env,
          Target := substituteVariables layer.Target config.Variables env,
          Template := layer.Template.map
            (fun kv => (kv.1, substituteVariables kv.2 config.Variables env)) }
      .ok { config with Layers := config.Layers ++ [finished] }

/-- C9.  Statement parsing frames what it does not define: a `VAR`
statement leaves the layer list and all three global hook lists
untouched, and a `LAYER` statement leaves the variable mapping and the
global hook lists untouched while appending exactly one layer. -/
theorem parse_statement_frame (env : Env) :
    (∀ (args : List String) (config config2 : OtterfileConfig),
      parseVarCommand env args config = .ok config2 →
      config2.Layers = config.Layers ∧
      config2.OnBeforeBuild = config.OnBeforeBuild ∧
      config2.OnAfterBuild = config.OnAfterBuild ∧
      config2.OnError = config.OnError) ∧
    (∀ (args : List String) (config config2 : OtterfileConfig),
      parseLayerCommand env args config = .ok config2 →
      config2.Variables = config.Variables ∧
      config2.OnBeforeBuild = config.OnBeforeBuild ∧
      config2.OnAfterBuild = config.OnAfterBuild ∧
      config2.OnError = config.OnError ∧
      ∃ l, config2.Layers = config.Layers ++ [l]) := by
  constructor
  · intro args config config2 h
    rw [parseVarCommand] at h
    simp only [] at h
    by_cases h1 : args.isEmpty = true
    · rw [if_pos h1] at h
      cases h
    · rw [if_neg h1] at h
      cases h2 : splitFirstEq (joinSpace args) with
      | none =>
        rw [h2] at h
        cases h
      | some p =>
        obtain ⟨lhs, rhs⟩ := p
        rw [h2] at h
        simp only [] at h
        by_cases h3 : trimSpace lhs = ""
        · rw [if_pos h3] at h
          cases h
        · rw [if_neg h3] at h
          injection h with h4
          subst h4
          exact ⟨rfl, rfl, rfl, rfl⟩
  · intro args config config2 h
    cases args with
    | nil =>
      rw [parseLayerCommand] at h
      cases h
    | cons source rest =>
      rw [parseLayerCommand] at h
      cases hp : parseLayerArgs rest
          { Repository := source, Target := ".", Condition := "",
            Template := [], Before := [], After := [] } with
      | error e =>
        rw [hp] at h
        cases h
      | ok layer =>
        rw [hp] at h
        simp only [] at h
        injection h with h4
        subst h4
        exact ⟨rfl, rfl, rfl, rfl, _, rfl⟩

/-- A configuration with distinctive contents for the frame witness. -/
def witnessConfig : OtterfileConfig :=
  { Variables := [("A", "1")], Layers := [],
    OnBeforeBuild := ["echo before"], OnAfterBuild := ["echo after"],
    OnError := ["echo error"] }

/-- `witnessConfig` after parsing `VAR NAME=value`. -/
def witnessVarParsed : OtterfileConfig :=
  { Variables := [("A", "1"), ("NAME", "value")], Layers := [],
    OnBeforeBuild := ["echo before"], OnAfterBuild := ["echo after"],
    OnError := ["echo error"] }

/-- `witnessConfig` after parsing `LAYER ./src TARGET out`. -/
def witnessLayerParsed : OtterfileConfig :=
  { Variables := [("A", "1")],
    Layers := [{ Repository := "./src", Target := "out", Condition := "",
                 Template := [], Before := [], After := [] }],
    OnBeforeBuild := ["echo before"], OnAfterBuild := ["echo after"],
    OnError := ["echo error"] }

theorem parse_statement_frame_witness :
    (witnessVarParsed.Layers = witnessConfig.Layers ∧
     witnessVarParsed.OnBeforeBuild = witnessConfig.OnBeforeBuild ∧
     witnessVarParsed.OnAfterBuild = witnessConfig.OnAfterBuild ∧
     witnessVarParsed.OnError = witnessConfig.OnError) ∧
    (witnessLayerParsed.Variables = witnessConfig.Variables ∧
     witnessLayerParsed.OnBeforeBuild = witnessConfig.OnBeforeBuild ∧
     witnessLayerParsed.OnAfterBuild = witnessConfig.OnAfterBuild ∧
     witnessLayerParsed.OnError = witnessConfig.OnError ∧
     ∃ l, witnessLayerParsed.Layers = witnessConfig.Layers ++ [l]) :=
  ⟨(parse_statement_frame emptyEnv).1 ["NAME=value"] witnessConfig
      witnessVarParsed (by
        simp only [parseVarCommand, substituteVariables_eval]
        rfl),
    (parse_statement_frame emptyEnv).2 ["./src", "TARGET", "out"] witnessConfig
      witnessLayerParsed (by
        simp only [parseLayerCommand, parseLayerArgs, substituteVariables_eval]
        rfl)⟩

/-!
## Condition Evaluator and Build Orchestrator
-/

/-- A parsed `key=value` condition (`file.Condition`). -/
structure Condition where
  Key : String
  Value : String
deriving DecidableEq, Repr

/-- The ambient runtime context the condition evaluator consults:
platform identifiers, the environment, and directory probing for editor
detection. -/
structure RuntimeCtx where
  goos : String
  goarch : String
  getenv : Env
  dirProbe : String → Bool

/-- `file.parseCondition`: split at the first `'='`; an empty string or
a string without `'='` is an error; both sides are trimmed. -/
def parseCondition (conditionStr : String) : Except String Condition :=
  if conditionStr = "" then
    .error "condition cannot be empty"
  else
    match splitFirstEq conditionStr with
    | none => .error ("condition must be in format key=value, got: " ++ conditionStr)
    | some (k, v) => .ok { Key := trimSpace k, Value := trimSpace v }

/-- `file.evaluateCondition`: dispatch on the condition key against the
runtime context; unknown keys compare against `OTTER_` + uppercased key
in the environment. -/
def evaluateCondition (ctx : RuntimeCtx) (condition : Condition) : Bool :=
  if condition.Key = "os" then
    condition.Value == ctx.goos
  else if condition.Key = "arch" then
    condition.Value == ctx.goarch
  else if condition.Key = "env" || condition.Key = "environment" then
    let e1 := ctx.getenv "OTTER_ENV"
    let e2 := if e1 = "" then ctx.getenv "ENV" else e1
    let e3 := if e2 = "" then ctx.getenv "NODE_ENV" else e2
    let e4 := if e3 = "" then "development" else e3
    condition.Value == e4
  else if condition.Key = "editor" then
    let v1 := ctx.getenv "OTTER_EDITOR"
    let v2 := if v1 = "" then ctx.getenv "EDITOR" else v1
    let v3 :=
      if v2 = "" then
        if ctx.dirProbe ".vscode" then "vscode"
        else if ctx.dirProbe ".cursor" then "cursor"
        else ""
      else v2
    condition.Value == v3
  else
    condition.Value == ctx.getenv ("OTTER_" ++ goToUpper condition.Key)

/-- `Layer.ShouldApplyLayer`: no condition means always apply; a
malformed condition is an error. -/
def ShouldApplyLayer (ctx : RuntimeCtx) (l : Layer) : Except String Bool :=
  if l.Condition = "" then
    .ok true
  else
    match parseCondition l.Condition with
    | .error e =>
      .error ("failed to parse condition " ++ l.Condition ++ ": " ++ e)
    | .ok cond => .ok (evaluateCondition ctx cond)

/-- `OtterfileConfig.FilterApplicableLayers`: keep, in declaration
order, the layers whose condition holds; a condition error aborts. -/
def FilterApplicableLayers (ctx : RuntimeCtx) :
    List Layer → Except String (List Layer)
  | [] => .ok []
  | l :: rest =>
    match ShouldApplyLayer ctx l with
    | .error e =>
      .error ("error evaluating condition for layer " ++ l.Repository ++ ": " ++ e)
    | .ok true =>
      match FilterApplicableLayers ctx rest with
      | .error e => .error e
      | .ok xs => .ok (l :: xs)
    | .ok false => FilterApplicableLayers ctx rest

/-- The per-layer effects the orchestrator sequences, abstracted as
outcome functions: running one hook command list, acquiring a layer
source (yielding its resolved path), and merging a layer from a resolved
path. -/
structure BuildSteps where
  runHooks : List String → Except String Unit
  acquire : String → Except String String
  merge : Layer → String → Except String Unit

/-- Modelled from the spec: the hook-aware build orchestrator (spec
§4.7) is absent from the sources — the only build command present is an
older, hook-less revision — so the per-layer protocol is taken from the
spec: run the layer's `before` hooks, acquire its source, merge its
files, run its `after` hooks, failing fast. -/
def processLayer (steps : BuildSteps) (l : Layer) : Except String Unit :=
  match steps.runHooks l.Before with
  | .error e => .error e
  | .ok _ =>
    match steps.acquire l.Repository with
    | .error e => .error e
    | .ok path =>
      match steps.merge l path with
      | .error e => .error e
      | .ok _ => steps.runHooks l.After

/-- Modelled from the spec: process the applicable layers in order,
stopping at the first failure, and count the layers applied. -/
def processLayers (steps : BuildSteps) : List Layer → Except String Nat
  | [] => .ok 0
  | l :: rest =>
    match processLayer steps l with
    | .error e => .error e
    | .ok _ =>
      match processLayers steps rest with
      | .error e => .error e
      | .ok n => .ok (n + 1)

/-- Modelled from the spec: the build orchestrator of §4.7 — run
`onBeforeBuild` once, filter the declared layers by condition, process
each applicable layer in order, run `onAfterBuild` once, and report the
count of layers applied (`onError` runs best-effort on the failure path
and the original error is surfaced, which this success-count model keeps
as the propagated error). -/
def runBuild (ctx : RuntimeCtx) (steps : BuildSteps)
    (config : OtterfileConfig) : Except String Nat :=
  match steps.runHooks config.OnBeforeBuild with
  | .error e => .error e
  | .ok _ =>
    match FilterApplicableLayers ctx config.Layers with
    | .error e => .error e
    | .ok applicable =>
      match processLayers steps applicable with
      | .error e => .error e
      | .ok n =>
        match steps.runHooks config.OnAfterBuild with
        | .error e => .error e
        | .ok _ => .ok n

theorem processLayers_all_ok (steps : BuildSteps) :
    ∀ (layers : List Layer),
      (∀ l ∈ layers, processLayer steps l = .ok ()) →
      processLayers steps layers = .ok layers.length := by
  intro layers
  induction layers with
  | nil => intro _; rfl
  | cons l rest ih =>
    intro h
    rw [processLayers, h l (List.mem_cons_self _ _),
      ih fun x hx => h x (List.mem_cons_of_mem _ hx)]
    simp

/-- C5.  When condition filtering selects `K` of the declared layers and
every selected layer's hooks, acquisition and merge succeed (and the
global hooks succeed), the orchestrator reports success with a count
equal to `K`, the number of applicable layers actually processed. -/
theorem runBuild_reports_applicable_count (ctx : RuntimeCtx)
    (steps : BuildSteps) (config : OtterfileConfig)
    (selected : List Layer)
    (hfilter : FilterApplicableLayers ctx config.Layers = .ok selected)
    (hbefore : steps.runHooks config.OnBeforeBuild = .ok ())
    (hafter : steps.runHooks config.OnAfterBuild = .ok ())
    (hlayers : ∀ l ∈ selected,
      steps.runHooks l.Before = .ok () ∧
      (∃ path, steps.acquire l.Repository = .ok path ∧
        steps.merge l path = .ok ()) ∧
      steps.runHooks l.After = .ok ()) :
    runBuild ctx steps config = .ok selected.length := by
  have hproc : ∀ l ∈ selected, processLayer steps l = .ok () := by
    intro l hl
    obtain ⟨hb, ⟨path, hacq, hmerge⟩, ha⟩ := hlayers l hl
    rw [processLayer]
    simp only [hb, hacq, hmerge, ha]
  rw [runBuild]
  simp only [hbefore, hfilter, processLayers_all_ok steps selected hproc, hafter]

/-- Runtime context for the orchestrator witness: linux/amd64, no
environment variables, no editor marker directories. -/
def witnessCtx : RuntimeCtx :=
  { goos := "linux", goarch := "amd64", getenv := fun _ => "",
    dirProbe := fun _ => false }

/-- Build steps for the orchestrator witness: everything succeeds. -/
def witnessSteps : BuildSteps :=
  { runHooks := fun _ => .ok (),
    acquire := fun source => .ok source,
    merge := fun _ _ => .ok () }

/-- A configuration declaring two layers of which only the first
applies under `witnessCtx` (the second requires `os=windows`). -/
def witnessBuildConfig : OtterfileConfig :=
  { Variables := [],
    Layers :=
      [{ Repository := "./a", Target := ".", Condition := "",
         Template := [], Before := ["true"], After := [] },
       { Repository := "./b", Target := ".", Condition := "os=windows",
         Template := [], Before := [], After := [] }],
    OnBeforeBuild := ["echo start"], OnAfterBuild := ["echo done"],
    OnError := [] }

theorem runBuild_reports_applicable_count_witness :
    runBuild witnessCtx witnessSteps witnessBuildConfig = .ok 1 :=
  runBuild_reports_applicable_count witnessCtx witnessSteps
    witnessBuildConfig
    [{ Repository := "./a", Target := ".", Condition := "",
       Template := [], Before := ["true"], After := [] }]
    (by rfl) (by rfl) (by rfl)
    (by
      intro l hl
      simp only [List.mem_singleton] at hl
      subst hl
      exact ⟨rfl, ⟨"./a", rfl, rfl⟩, rfl⟩)

/-!
Sanity anchors, mirroring the repository's own test vectors
(`TestSubstituteVariables`, the ignore-pattern scenario of the spec).
-/

example : isIgnoredWithPatterns "debug.log" ["*.log", "temp/"] = true := by
  decide

example : isIgnoredWithPatterns "temp/file.txt" ["*.log", "temp/"] = true := by
  decide

example : isIgnoredWithPatterns "logs/error.txt" ["*.log", "temp/"] = false := by
  decide

example :
    substituteVariables "$\x7bMALFORMED" [("MALFORMED", "x")] emptyEnv =
      "$\x7bMALFORMED" := by
  rw [substituteVariables_eval]
  decide

example :
    substituteVariables "prefix-$\x7bEMPTY\x7d-suffix" [("EMPTY", "")] emptyEnv =
      "prefix--suffix" := by
  rw [substituteVariables_eval]
  decide

end Otter
